import Mathlib

/-!
Verification development for the Grepper utility (src/grepper.py).

Strings are modelled as `List Char`.  Python's `str.lower` / `re.IGNORECASE`
are modelled with `Char.toLower`, and `\w` / word boundaries with the ASCII
word characters (letters, digits, underscore); the repository's patterns and
the spec's examples are ASCII.  File-system reads (`open`, `os.walk`,
`os.scandir`, `os.stat`) are modelled by passing the data they would return
(file bytes become a `binary` flag plus a list of lines, sizes become `Nat`
fields, the tree becomes an inductive value).
-/

namespace Grepper

/-- Python whitespace characters stripped by `str.strip()` (ASCII subset). -/
def isPySpace (c : Char) : Bool :=
  c = ' ' || c = '\t' || c = '\n' || c = '\r' || c = '\x0b' || c = '\x0c'

/-- `str.strip()`: drop leading and trailing whitespace. -/
def stripList (l : List Char) : List Char :=
  ((l.dropWhile isPySpace).reverse.dropWhile isPySpace).reverse

/-- `str.lower()` (ASCII model). -/
def lowerList (l : List Char) : List Char :=
  l.map Char.toLower

/-- `rel_posix_path.rsplit("/", 1)[-1]`: the final path component. -/
def lastComp (l : List Char) : List Char :=
  (l.reverse.takeWhile (fun c => c ≠ '/')).reverse

/--
`fnmatch.fnmatchcase(name, pat)` modelled with explicit fuel so that the
function is structurally recursive (and hence evaluates by `decide`): `*`
matches any sequence of characters (including `/` — `fnmatch` is not
path-aware), `?` matches any single character, every other pattern character
matches itself.  Character classes `[...]` are not modelled (no pattern in
this repository or in the spec uses them); `[` is treated as an ordinary
character.
-/
def globMatchFuel : Nat → List Char → List Char → Bool
  | 0, _, _ => false
  | fuel + 1, p, s =>
    match p with
    | [] => s.isEmpty
    | c :: ps =>
      if c = '*' then
        globMatchFuel fuel ps s ||
          (match s with
           | [] => false
           | _ :: ss => globMatchFuel fuel (c :: ps) ss)
      else
        match s with
        | [] => false
        | d :: ss => (if c = '?' then true else c = d) && globMatchFuel fuel ps ss

/-- `fnmatch.fnmatchcase(name, pat)`: fuel `pat.length + name.length + 1`
always suffices, since every recursive step of `globMatchFuel` shortens the
pattern or the subject. -/
def fnmatchcase (name pat : List Char) : Bool :=
  globMatchFuel (pat.length + name.length + 1) pat name

/-- One parsed ignore rule: `(pattern, negated, dir_only)` as produced by
`load_gitignore_rules`. -/
structure IgnoreRule where
  pat : List Char
  negated : Bool
  dirOnly : Bool
deriving DecidableEq, Repr

/-- `line.rstrip("/")`. -/
def rstripSlashes (l : List Char) : List Char :=
  (l.reverse.dropWhile (fun c => c = '/')).reverse

/-- One iteration of the loop body of `load_gitignore_rules` (grepper.py
lines 134-148): strip the raw line, skip blanks and `#` comments, strip a
leading `!` (negation), detect a trailing `/` (directory-only) and rewrite
the pattern to `pat ++ "/**"` in that case. -/
def parseIgnoreLine (raw : List Char) : Option IgnoreRule :=
  let line := stripList raw
  if line = [] then none
  else if line.head? = some '#' then none
  else
    let negated := line.head? = some '!'
    let line2 := if negated then stripList (line.drop 1) else line
    if line2 = [] then none
    else
      let dirOnly := line2.reverse.head? = some '/'
      let pat0 := rstripSlashes line2
      let pat := if dirOnly then pat0 ++ ('/' :: '*' :: '*' :: []) else pat0
      some ⟨pat, negated, dirOnly⟩

/-- `load_gitignore_rules`, with the file contents supplied as raw lines
(the source reads them from `.gitignore`; a missing or unreadable file is
the empty list). -/
def load_gitignore_rules (lines : List (List Char)) : List IgnoreRule :=
  lines.filterMap parseIgnoreLine

/-- The loop of `gitignore_ignored` (grepper.py lines 159-164): fold the
rules in order over the accumulated `ignored` flag; last match wins. -/
def gitignoreAux (relPath name : List Char) (isDir : Bool) :
    List IgnoreRule → Bool → Bool
  | [], acc => acc
  | r :: rs, acc =>
    let acc2 :=
      if r.dirOnly && !isDir then acc
      else
        let target := if r.pat.contains '/' then relPath else name
        if fnmatchcase target r.pat then !r.negated else acc
    gitignoreAux relPath name isDir rs acc2

/-- `gitignore_ignored(rel_posix_path, is_dir, rules)` (grepper.py
lines 154-165). -/
def gitignore_ignored (relPath : List Char) (isDir : Bool)
    (rules : List IgnoreRule) : Bool :=
  if rules = [] then false
  else gitignoreAux relPath (lastComp relPath) isDir rules false

/-- Whether a rule applies to a candidate at all: directory-only rules are
skipped for non-directories, otherwise the rule's glob is tested against the
full relative path (if the pattern contains `/`) or the final component. -/
def ruleMatches (relPath : List Char) (isDir : Bool) (r : IgnoreRule) : Bool :=
  if r.dirOnly && !isDir then false
  else fnmatchcase (if r.pat.contains '/' then relPath else lastComp relPath) r.pat

/-- Does `hay` start with `needle`?  (Used to model Python's `in`.) -/
def startsWithL : List Char → List Char → Bool
  | [], _ => true
  | _ :: _, [] => false
  | c :: cs, d :: ds => c = d && startsWithL cs ds

/-- Python's substring test `needle in hay` (the empty needle is contained
in every string). -/
def containsSub (needle : List Char) : List Char → Bool
  | [] => needle.isEmpty
  | d :: ds => startsWithL needle (d :: ds) || containsSub needle ds

/-! ## A small regex engine

The workers build their regexes by string interpolation (`rf"\b{pat}\b"`,
`re.escape`) and hand them to Python's `re`.  We model the fragment of `re`
those call sites can produce: literal characters, escapes, the alternation
operator `|`, and the word-boundary assertion `\b`.  Constructs outside the
fragment (groups, classes, quantifiers, anchors, other letter escapes) make
`tokenize` return `none`, i.e. they are not modelled rather than mis-modelled.
`re.error` on a malformed pattern is modelled by `parseRegex = none`
(e.g. a trailing lone backslash). -/

/-- An atom of the modelled regex fragment. -/
inductive RAtom where
  | chr (c : Char)
  | wordB
deriving DecidableEq, Repr

/-- A lexer token: an atom or the alternation bar. -/
inductive Tok where
  | atom (a : RAtom)
  | alt
deriving DecidableEq, Repr

/-- Abstract syntax of the modelled regex fragment. -/
inductive Regex where
  | eps
  | chr (c : Char)
  | cat (r1 r2 : Regex)
  | alt (r1 r2 : Regex)
  | wordB
deriving DecidableEq, Repr

/-- Regex metacharacters whose constructs are outside the modelled
fragment; a pattern using one unescaped is rejected by `tokenize`. -/
def regexMetaChars : List Char :=
  ['(', ')', '[', ']', '{', '}', '*', '+', '?', '^', '$', '.']

/-- Lex a pattern string: `\b` is a word boundary, `\c` for non-alphanumeric
`c` is the literal `c`, a lone trailing `\` or an unmodelled construct gives
`none`. -/
def tokenize : List Char → Option (List Tok)
  | [] => some []
  | c :: rest =>
    if c = '\\' then
      match rest with
      | [] => none
      | d :: rest2 =>
        if d = 'b' then (tokenize rest2).map (fun ts => Tok.atom RAtom.wordB :: ts)
        else if d.isAlphanum then none
        else (tokenize rest2).map (fun ts => Tok.atom (RAtom.chr d) :: ts)
    else if c = '|' then (tokenize rest).map (fun ts => Tok.alt :: ts)
    else if c ∈ regexMetaChars then none
    else (tokenize rest).map (fun ts => Tok.atom (RAtom.chr c) :: ts)

/-- Split a token stream at the alternation bars (all bars are top-level in
the modelled fragment, since it has no groups). -/
def splitAlt : List Tok → List (List RAtom)
  | [] => [[]]
  | Tok.alt :: ts => [] :: splitAlt ts
  | Tok.atom a :: ts =>
    match splitAlt ts with
    | [] => [[a]]
    | s :: ss => (a :: s) :: ss

/-- One alternative: the concatenation of its atoms. -/
def buildConcat : List RAtom → Regex
  | [] => Regex.eps
  | RAtom.chr c :: as => Regex.cat (Regex.chr c) (buildConcat as)
  | RAtom.wordB :: as => Regex.cat Regex.wordB (buildConcat as)

/-- Fold the alternatives with `Regex.alt` (right-associated, same language
as `re`'s n-ary alternation). -/
def buildAlt : List (List RAtom) → Regex
  | [] => Regex.eps
  | [s] => buildConcat s
  | s :: ss => Regex.alt (buildConcat s) (buildAlt ss)

/-- `re.compile` on the modelled fragment: `none` models `re.error`. -/
def parseRegex (s : List Char) : Option Regex :=
  (tokenize s).map (fun ts => buildAlt (splitAlt ts))

/-- Python's `\w` (ASCII model): letters, digits, underscore. -/
def isWordChar (c : Char) : Bool :=
  c.isAlphanum || c = '_'

/-- Is the character at index `i` of `hay` a word character (out of range
counts as non-word)? -/
def isWordAt (hay : List Char) (i : Nat) : Bool :=
  match hay[i]? with
  | some c => isWordChar c
  | none => false

/-- Python's `\b`: the two sides of position `i` disagree about being a word
character (ends of the string count as non-word). -/
def wordBoundaryAt (hay : List Char) (i : Nat) : Bool :=
  (if i = 0 then false else isWordAt hay (i - 1)) != isWordAt hay i

/-- All end positions of a match of `r` in `hay` starting at position `i`;
`ci` is `re.IGNORECASE` (modelled by `Char.toLower` folding). -/
def spansCI (ci : Bool) : Regex → List Char → Nat → List Nat
  | Regex.eps, _, i => [i]
  | Regex.chr c, hay, i =>
    match hay[i]? with
    | some d => if (if ci then c.toLower = d.toLower else c = d) then [i + 1] else []
    | none => []
  | Regex.cat r1 r2, hay, i =>
    (spansCI ci r1 hay i).flatMap (fun j => spansCI ci r2 hay j)
  | Regex.alt r1 r2, hay, i =>
    spansCI ci r1 hay i ++ spansCI ci r2 hay i
  | Regex.wordB, hay, i =>
    if wordBoundaryAt hay i then [i] else []

/-- `re.search(r, hay) is not None`: some match starts at some position. -/
def regexSearchCI (ci : Bool) (r : Regex) (hay : List Char) : Bool :=
  (List.range (hay.length + 1)).any (fun i => !(spansCI ci r hay i).isEmpty)

/-- The characters `re.escape` backslash-escapes (CPython's
`_special_chars_map`). -/
def reSpecialChars : List Char :=
  ['(', ')', '[', ']', '{', '}', '?', '*', '+', '-', '|', '^', '$', '\\',
   '.', '&', '~', '#', ' ', '\t', '\n', '\r', '\x0b', '\x0c']

/-- `re.escape`. -/
def escapeRegex : List Char → List Char
  | [] => []
  | c :: cs => (if c ∈ reSpecialChars then ['\\', c] else [c]) ++ escapeRegex cs

/-- The worker's whole-word wrapping `rf"\b{e}\b"`: plain string
concatenation, no grouping. -/
def wordBWrap (e : List Char) : List Char :=
  '\\' :: 'b' :: e ++ ['\\', 'b']

/-- The literal (`isRegex=false`) predicate of `_worker_text` (grepper.py
lines 1650-1656); `_worker_file` (1855-1861) and `_worker_folder`
(1984-1991) build the same predicate for names.  Case-insensitivity lowers
both needle and haystack; whole-word mode calls
`re.search(rf"\b{re.escape(needle)}\b", hay)` (default flags), modelled via
the regex fragment — the `none` branch is unreachable (claim C10). -/
def literalIsMatch (caseSensitive wholeWord : Bool) (pattern line : List Char) : Bool :=
  let needle := if caseSensitive then pattern else lowerList pattern
  let hay := if caseSensitive then line else lowerList line
  if wholeWord then
    match parseRegex (wordBWrap (escapeRegex needle)) with
    | some r => regexSearchCI false r hay
    | none => false
  else containsSub needle hay

/-- The matcher setup of `_worker_text` (grepper.py lines 1641-1656):
regex mode compiles `pattern` (wrapped as `rf"\b{pattern}\b"` for
whole-word) with `re.IGNORECASE` unless case-sensitive, failing on a
malformed pattern (`none`); literal mode never fails. -/
def compileTextMatcher (useRegex caseSensitive wholeWord : Bool)
    (pattern : List Char) : Option (List Char → Bool) :=
  if useRegex then
    match parseRegex (if wholeWord then wordBWrap pattern else pattern) with
    | some r => some (fun line => regexSearchCI (!caseSensitive) r line)
    | none => none
  else some (fun line => literalIsMatch caseSensitive wholeWord pattern line)

/-- The compiled predicate applied to a line (`false` when compilation
failed, in which case the worker never reaches a line). -/
def textIsMatch (useRegex caseSensitive wholeWord : Bool)
    (pattern line : List Char) : Bool :=
  match compileTextMatcher useRegex caseSensitive wholeWord pattern with
  | some m => m line
  | none => false

/-- `_build_highlight_regex` (grepper.py lines 1114-1122): the UI highlight
regex wraps the (escaped-or-raw) pattern as a single unit,
`rf"\b(?:{expr})\b"`; the non-capturing group is semantically just
grouping, so it is modelled by wrapping the parsed AST between two
word-boundary atoms. -/
def highlightRegex (useRegex wholeWord : Bool) (pattern : List Char) :
    Option Regex :=
  let expr := if useRegex then pattern else escapeRegex pattern
  match parseRegex expr with
  | some r =>
    some (if wholeWord then Regex.cat Regex.wordB (Regex.cat r Regex.wordB) else r)
  | none => none

/-- Matching a line against the highlight regex (the claimed "single unit
with word boundaries on both sides" semantics). -/
def highlightMatch (useRegex caseSensitive wholeWord : Bool)
    (pattern line : List Char) : Bool :=
  match highlightRegex useRegex wholeWord pattern with
  | some r => regexSearchCI (!caseSensitive) r line
  | none => false

/-! ## File-system model and the traversal engine -/

/-- `is_hidden_path` (grepper.py lines 109-119): dot-prefixed name.  (The
Windows hidden/system attribute branch is platform state outside the
model.) -/
def isHiddenName (name : List Char) : Bool :=
  name.head? = some '.'

/-- A file as the workers observe it: its name, `os.path.getsize` result,
the `is_binary_quick` verdict (a null byte in the 2048-byte prefix, or an
unreadable file — grepper.py lines 100-106), and the decoded lines that
iterating the opened file yields (each possibly ending in a newline). -/
structure FileM where
  name : List Char
  size : Nat
  binary : Bool
  lines : List (List Char)
deriving DecidableEq, Repr

/-- A directory tree as `os.walk` would traverse it. -/
inductive FSTree where
  | node (dname : List Char) (subdirs : List FSTree) (files : List FileM)

/-- The name of a directory node. -/
def FSTree.name : FSTree → List Char
  | FSTree.node n _ _ => n

/-- Join path components with `/` — the posix-normalized
`os.path.relpath(..., base_dir)` of an entry whose components relative to
the walk root are given (the root itself is `[]`). -/
def joinPath : List (List Char) → List Char
  | [] => []
  | [c] => c
  | c :: cs => c ++ '/' :: joinPath cs

/-- One `(root, dirs, files)` triple yielded by `_walk_with_depth`, with
the root given by its components relative to the base directory. -/
structure WalkEntry where
  path : List (List Char)
  dirNames : List (List Char)
  files : List FileM
deriving DecidableEq, Repr

/-- The per-subdirectory filter of `_walk_with_depth` (grepper.py lines
1596-1606): hidden-entry removal (when `skip_hidden`) and the ignore-rule
test against the posix relative path. -/
def walkDirKeep (sh : Bool) (rules : List IgnoreRule) (path : List (List Char))
    (t : FSTree) : Bool :=
  !(sh && isHiddenName t.name) &&
    !(gitignore_ignored (joinPath (path ++ [t.name])) true rules)

/-- The per-file filter of `_walk_with_depth` (grepper.py lines 1596-1613):
hidden-entry removal, then the ignore-rule test. -/
def walkFilesFiltered (sh : Bool) (rules : List IgnoreRule) (path : List (List Char))
    (files : List FileM) : List FileM :=
  (if sh then files.filter (fun f => !(isHiddenName f.name)) else files).filter
    (fun f => !(gitignore_ignored (joinPath (path ++ [f.name])) false rules))

/-- The callers' folder-exclude mutation (`dirs[:] = [d for d in dirs if
not any(fnmatch(d, g) ...)]`, grepper.py lines 1661-1662, 1887-1888,
2082-2083): because `os.walk` shares the `dirs` list, this prunes descent. -/
def dirExcluded (dx : List (List Char)) (name : List Char) : Bool :=
  dx.any (fun g => fnmatchcase name g)

mutual

/-- `_walk_with_depth` (grepper.py lines 1587-1615) on the tree model, with
the callers' exclude-glob descent pruning folded in as `dx`: at each
directory, if the depth limit is reached the subdirectory list is emptied;
hidden filtering and ignore-rule filtering are applied to subdirectories
and files; the triple is yielded and the surviving (and not
caller-excluded) subdirectories are descended into.  `depth` always equals
`path.length` at call sites. -/
def walkT (dl : Option Nat) (sh : Bool) (rules : List IgnoreRule) (dx : List (List Char)) :
    FSTree → List (List Char) → Nat → List WalkEntry
  | FSTree.node _ subdirs files, path, depth =>
    let pruned : Bool := match dl with
      | some l => decide (l ≤ depth)
      | none => false
    let subdirs2 := if pruned then [] else subdirs
    let keptDirs := subdirs2.filter (fun t => walkDirKeep sh rules path t)
    (⟨path, keptDirs.map FSTree.name, walkFilesFiltered sh rules path files⟩ : WalkEntry) ::
      (if pruned then [] else walkL dl sh rules dx subdirs path depth)

/-- Descent into a directory's children, in order, re-checking the keep
and exclude predicates per child (mirroring the shared mutable `dirs`
list of `os.walk`). -/
def walkL (dl : Option Nat) (sh : Bool) (rules : List IgnoreRule) (dx : List (List Char)) :
    List FSTree → List (List Char) → Nat → List WalkEntry
  | [], _, _ => []
  | t :: ts, path, depth =>
    (if walkDirKeep sh rules path t && !(dirExcluded dx t.name)
     then walkT dl sh rules dx t (path ++ [t.name]) (depth + 1)
     else []) ++ walkL dl sh rules dx ts path depth

end

/-- The full traversal from the base directory (relative path `[]`,
depth 0). -/
def walk_with_depth (dl : Option Nat) (sh : Bool) (rules : List IgnoreRule)
    (dx : List (List Char)) (t : FSTree) : List WalkEntry :=
  walkT dl sh rules dx t [] 0

/-! ## The Content worker (native path) -/

/-- `line.rstrip("\n")`. -/
def rstripNL (l : List Char) : List Char :=
  (l.reverse.dropWhile (fun c => c = '\n')).reverse

/-- The line-scan loop of `_worker_text` (grepper.py lines 1696-1710):
emit `(line number, line without trailing newlines)` for each matching
line; with `first` set, stop after the first emission. -/
def scanLines (isM : List Char → Bool) (first : Bool) :
    Nat → List (List Char) → List (Nat × List Char)
  | _, [] => []
  | i, l :: ls =>
    if isM l then
      (i, rstripNL l) :: (if first then [] else scanLines isM first (i + 1) ls)
    else scanLines isM first (i + 1) ls

/-- Does `l` end with `suf`?  (`str.endswith`.) -/
def endsWithL (suf l : List Char) : Bool :=
  startsWithL suf.reverse l.reverse

/-- The parameters `_worker_text` receives (native path).  `maxBytes` is
`max_mb * 1024 * 1024` in bytes with `0` meaning unlimited; `filetype =
none` models the `"All"` setting. -/
structure TextParams where
  includeGlobs : List (List Char)
  excludeGlobs : List (List Char)
  maxBytes : Nat
  depthLimit : Option Nat
  skipHidden : Bool
  rules : List IgnoreRule
  firstMatch : Bool
  useRegex : Bool
  caseSensitive : Bool
  wholeWord : Bool
  pattern : List Char
  filetype : Option (List Char)

/-- The per-file filters of `_worker_text` applied before the scanned
counter is incremented (grepper.py lines 1673-1687): file-type suffix,
include globs (only when non-empty), exclude globs, size cap. -/
def fileConsidered (p : TextParams) (f : FileM) : Bool :=
  (match p.filetype with
   | none => true
   | some ft => endsWithL ft f.name) &&
  (p.includeGlobs.isEmpty || p.includeGlobs.any (fun g => fnmatchcase f.name g)) &&
  !(p.excludeGlobs.any (fun g => fnmatchcase f.name g)) &&
  !(0 < p.maxBytes && p.maxBytes < f.size)

/-- The records one file contributes in `_worker_text` (grepper.py lines
1673-1710): nothing if it fails the filters or the binary probe, else the
matching lines found by `scanLines`. -/
def processFile (p : TextParams) (isM : List Char → Bool)
    (dirPath : List (List Char)) (f : FileM) :
    List (List (List Char) × Nat × List Char) :=
  if !(fileConsidered p f) then []
  else if f.binary then []
  else (scanLines isM p.firstMatch 1 f.lines).map
    (fun r => (dirPath ++ [f.name], r.1, r.2))

/-- What one `_worker_text` run produces and leaves behind: the emitted
content records (path components, 1-based line number, line text), whether
the invalid-pattern error was logged, whether the one-way stop flag is set
at return, the directories visited by the walk, and the files-scanned
counter. -/
structure TextOutcome where
  records : List (List (List Char) × Nat × List Char)
  invalidPattern : Bool
  stopped : Bool
  visited : List (List (List Char))
  scanned : Nat
deriving DecidableEq, Repr

/-- `_worker_text` (grepper.py lines 1617-1714), native path (the ripgrep
branch is not taken): compile the matcher — on `re.error` log the invalid
pattern, set the stop flag and return before walking; otherwise walk, and
for each yielded directory process its files; finally set the stop flag. -/
def worker_text (p : TextParams) (t : FSTree) : TextOutcome :=
  match compileTextMatcher p.useRegex p.caseSensitive p.wholeWord p.pattern with
  | none => ⟨[], true, true, [], 0⟩
  | some isM =>
    let entries := walk_with_depth p.depthLimit p.skipHidden p.rules p.excludeGlobs t
    ⟨entries.flatMap (fun e => e.files.flatMap (fun f => processFile p isM e.path f)),
     false, true, entries.map WalkEntry.path,
     (entries.flatMap (fun e => e.files.filter (fun f => fileConsidered p f))).length⟩

/-! ## The FolderName worker's content filter -/

/-- An `os.scandir` entry of a candidate folder, with the data the stat,
binary-probe and read calls would produce. -/
structure DirEntry where
  name : List Char
  isFile : Bool
  size : Nat
  binary : Bool
  lines : List (List Char)
deriving DecidableEq, Repr

/-- The parameters `folder_content_matches` closes over in
`_worker_folder`; `matchContent` is the compiled content predicate (the
constant-true bypass when the content filter is off). -/
structure FolderParams where
  includeGlobs : List (List Char)
  excludeGlobs : List (List Char)
  maxBytes : Nat
  skipHidden : Bool
  rules : List IgnoreRule
  contentOn : Bool
  matchContent : List Char → Bool

/-- `folder_content_matches` (grepper.py lines 2017-2076): iterate the
folder's entries; skip non-files, hidden entries, include/exclude-glob
failures, ignored paths and size-cap failures; count the surviving files;
with the content filter on, skip binary files and return success at the
first file with a matching line.  `folderRel` is the folder's posix path
relative to the search base. -/
def folder_content_matches (fp : FolderParams) (folderRel : List Char) :
    List DirEntry → Nat → Bool × Nat
  | [], seen => (false, seen)
  | e :: es, seen =>
    if !e.isFile then folder_content_matches fp folderRel es seen
    else if fp.skipHidden && isHiddenName e.name then
      folder_content_matches fp folderRel es seen
    else if !fp.includeGlobs.isEmpty &&
        !(fp.includeGlobs.any (fun g => fnmatchcase e.name g)) then
      folder_content_matches fp folderRel es seen
    else if fp.excludeGlobs.any (fun g => fnmatchcase e.name g) then
      folder_content_matches fp folderRel es seen
    else if gitignore_ignored (folderRel ++ '/' :: e.name) false fp.rules then
      folder_content_matches fp folderRel es seen
    else if 0 < fp.maxBytes && fp.maxBytes < e.size then
      folder_content_matches fp folderRel es seen
    else
      if !fp.contentOn then folder_content_matches fp folderRel es (seen + 1)
      else if e.binary then folder_content_matches fp folderRel es (seen + 1)
      else if e.lines.any fp.matchContent then (true, seen + 1)
      else folder_content_matches fp folderRel es (seen + 1)

/-- The emission decision of `_worker_folder` for one candidate directory
(grepper.py lines 2096-2101): a record is emitted iff the folder-name
predicate matched and, when the content filter is on, some directly
contained file's content matched. -/
def folderEmits (fp : FolderParams) (nameMatches : Bool) (folderRel : List Char)
    (entries : List DirEntry) : Bool :=
  nameMatches &&
    (!fp.contentOn || (folder_content_matches fp folderRel entries 0).1)

/-! ## The external-backend exclude-glob translation -/

/-- The include/exclude entry parsing of `_start_search` (grepper.py lines
1329-1330): split the text field on `;`, strip each piece, keep the
non-blank ones. -/
def parseGlobList (raw : List Char) : List (List Char) :=
  ((raw.splitOn ';').map stripList).filter (fun g => !g.isEmpty)

/-- The wildcard/separator test of `_worker_text_ripgrep` (grepper.py line
1763). -/
def hasWildcards (g : List Char) : Bool :=
  (['*', '?', '['].any (fun ch => g.contains ch)) || g.contains '/' || g.contains '\\'

/-- The `--glob` filter strings one exclude glob contributes to the
ripgrep command line (grepper.py lines 1760-1769): empty globs are
skipped; a glob with a wildcard or separator contributes `!g`; a bare name
contributes both `!g` and `!**/g/**`. -/
def rgExcludeGlobArgs (g : List Char) : List (List Char) :=
  if g.isEmpty then []
  else if hasWildcards g then ['!' :: g]
  else ['!' :: g, ('!' :: '*' :: '*' :: '/' :: g) ++ ['/', '*', '*']]

/-- The whole exclude-translation loop: each glob's filters in order. -/
def rgExcludeArgs (gs : List (List Char)) : List (List Char) :=
  gs.flatMap rgExcludeGlobArgs

/-! ## The FileName worker -/

/-- The parameters `_worker_file` receives (grepper.py lines 1842-1844):
a filename pattern spec, and an optional content-filter pattern spec
consulted only when `contentOn` is set. -/
structure FileParams where
  includeGlobs : List (List Char)
  excludeGlobs : List (List Char)
  maxBytes : Nat
  depthLimit : Option Nat
  skipHidden : Bool
  rules : List IgnoreRule
  fnameRegex : Bool
  fnameCase : Bool
  fnameWhole : Bool
  fnamePat : List Char
  contentOn : Bool
  contentRegex : Bool
  contentCase : Bool
  contentWhole : Bool
  contentPat : List Char

/-- What one `_worker_file` run produces: FileName records (path
components, size in bytes, content-matched flag — the formatted size/time
strings are presentation of these data), the invalid-pattern log, the stop
flag, the visited directories and the files-scanned counter. -/
structure FileOutcome where
  records : List (List (List Char) × Nat × Bool)
  invalidPattern : Bool
  stopped : Bool
  visited : List (List (List Char))
  scanned : Nat
deriving DecidableEq, Repr

/-- The per-file filters of `_worker_file` applied before the scanned
counter is incremented (grepper.py lines 1898-1912): include globs (only
when non-empty), exclude globs, size cap. -/
def fileConsideredF (p : FileParams) (f : FileM) : Bool :=
  (p.includeGlobs.isEmpty || p.includeGlobs.any (fun g => fnmatchcase f.name g)) &&
  !(p.excludeGlobs.any (fun g => fnmatchcase f.name g)) &&
  !(0 < p.maxBytes && p.maxBytes < f.size)

/-- The records one file contributes in `_worker_file` (grepper.py lines
1892-1947): nothing if it fails the filters, the filename predicate, or —
with the content filter on — the binary probe or the content scan;
otherwise one record carrying the size and the content-filter flag. -/
def processFileF (p : FileParams) (matchName matchContent : List Char → Bool)
    (dirPath : List (List Char)) (f : FileM) :
    List (List (List Char) × Nat × Bool) :=
  if !(fileConsideredF p f) then []
  else if !(matchName f.name) then []
  else if p.contentOn && f.binary then []
  else if p.contentOn && !(f.lines.any matchContent) then []
  else [(dirPath ++ [f.name], f.size, p.contentOn)]

/-- `_worker_file` (grepper.py lines 1842-1949): compile the filename
matcher (lines 1846-1861) and, when the content filter is on, the content
matcher (lines 1863-1882) — both with the same construction as
`_worker_text`; a `re.error` in either logs the invalid pattern, sets the
stop flag and returns before the walk.  Otherwise walk and process each
file; finally set the stop flag. -/
def worker_file (p : FileParams) (t : FSTree) : FileOutcome :=
  match compileTextMatcher p.fnameRegex p.fnameCase p.fnameWhole p.fnamePat with
  | none => ⟨[], true, true, [], 0⟩
  | some matchName =>
    match (if p.contentOn then
        compileTextMatcher p.contentRegex p.contentCase p.contentWhole p.contentPat
      else some (fun _ => true)) with
    | none => ⟨[], true, true, [], 0⟩
    | some matchContent =>
      let entries := walk_with_depth p.depthLimit p.skipHidden p.rules p.excludeGlobs t
      ⟨entries.flatMap (fun e =>
          e.files.flatMap (fun f => processFileF p matchName matchContent e.path f)),
       false, true, entries.map WalkEntry.path,
       (entries.flatMap (fun e => e.files.filter (fun f => fileConsideredF p f))).length⟩

/-! ## The FolderName worker -/

/-- The parameters `_worker_folder` receives (grepper.py lines 1951-1969):
a folder-name pattern spec and an optional content-filter pattern spec. -/
structure FolderWParams where
  includeGlobs : List (List Char)
  excludeGlobs : List (List Char)
  maxBytes : Nat
  depthLimit : Option Nat
  skipHidden : Bool
  rules : List IgnoreRule
  folderRegex : Bool
  folderCase : Bool
  folderWhole : Bool
  folderPat : List Char
  contentOn : Bool
  contentRegex : Bool
  contentCase : Bool
  contentWhole : Bool
  contentPat : List Char

/-- What one `_worker_folder` run produces: FolderName records (path
components, content-matched flag, count of files considered — modification
time is presentation), the invalid-pattern log, the stop flag, the visited
directories and the folders-scanned counter. -/
structure FolderOutcome where
  records : List (List (List Char) × Bool × Nat)
  invalidPattern : Bool
  stopped : Bool
  visited : List (List (List Char))
  scanned : Nat
deriving DecidableEq, Repr

/-- What `os.scandir` of a directory node lists: its subdirectories (as
non-file entries — skipped by `folder_content_matches`' `is_file` check)
and its files with their stat/probe/read data.  (The listing order of
`os.scandir` is unspecified; directories-then-files is fixed here, which
only affects the files-considered count at an early return, not whether a
match exists.) -/
def scandirEntries : FSTree → List DirEntry
  | FSTree.node _ subdirs files =>
    subdirs.map (fun s => ⟨s.name, false, 0, false, []⟩) ++
      files.map (fun f => ⟨f.name, true, f.size, f.binary, f.lines⟩)

mutual

/-- The candidate folders `_worker_folder` iterates (grepper.py lines
2078-2095): the walk of `_walk_with_depth` composed with the caller's
exclude-glob `dirs` mutation, yielding for each visited directory its
surviving subdirectories — `for dname in list(dirs)` — paired with the
candidate's tree node (whose raw listing `os.scandir` reads). -/
def folderCandsT (dl : Option Nat) (sh : Bool) (rules : List IgnoreRule)
    (dx : List (List Char)) :
    FSTree → List (List Char) → Nat → List (List (List Char) × FSTree)
  | FSTree.node _ subdirs _, path, depth =>
    let pruned : Bool := match dl with
      | some l => decide (l ≤ depth)
      | none => false
    let subdirs2 := if pruned then [] else subdirs
    let cands := (subdirs2.filter (fun c => walkDirKeep sh rules path c)).filter
        (fun c => !(dirExcluded dx c.name))
    cands.map (fun c => (path ++ [c.name], c)) ++
      (if pruned then [] else folderCandsL dl sh rules dx subdirs path depth)

/-- Descent for `folderCandsT`, with the same per-child keep and exclude
conditions as `walkL` (the mutated `dirs` list controls both the candidate
set and the descent). -/
def folderCandsL (dl : Option Nat) (sh : Bool) (rules : List IgnoreRule)
    (dx : List (List Char)) :
    List FSTree → List (List Char) → Nat → List (List (List Char) × FSTree)
  | [], _, _ => []
  | c :: cs, path, depth =>
    (if walkDirKeep sh rules path c && !(dirExcluded dx c.name)
     then folderCandsT dl sh rules dx c (path ++ [c.name]) (depth + 1)
     else []) ++ folderCandsL dl sh rules dx cs path depth

end

/-- The record one candidate folder contributes in `_worker_folder`
(grepper.py lines 2096-2108): nothing if the folder-name predicate fails
or the content gate rejects; otherwise the path, the content-filter flag
and the files-considered count. -/
def processFolderCand (p : FolderWParams) (matchFolder matchContent : List Char → Bool)
    (candPath : List (List Char)) (c : FSTree) :
    Option (List (List Char) × Bool × Nat) :=
  if !(matchFolder c.name) then none
  else
    let res := folder_content_matches
      ⟨p.includeGlobs, p.excludeGlobs, p.maxBytes, p.skipHidden, p.rules,
       p.contentOn, matchContent⟩
      (joinPath candPath) (scandirEntries c) 0
    if p.contentOn && !res.1 then none
    else some (candPath, p.contentOn, res.2)

/-- `_worker_folder` (grepper.py lines 1951-2110): compile the folder-name
matcher (lines 1974-1991) and, when the content filter is on, the content
matcher (lines 1994-2015) — same construction as `_worker_text`; a
`re.error` in either logs the invalid pattern, sets the stop flag and
returns before the walk.  Otherwise walk, test every candidate directory
(each counted as scanned) and emit the surviving ones; finally set the
stop flag. -/
def worker_folder (p : FolderWParams) (t : FSTree) : FolderOutcome :=
  match compileTextMatcher p.folderRegex p.folderCase p.folderWhole p.folderPat with
  | none => ⟨[], true, true, [], 0⟩
  | some matchFolder =>
    match (if p.contentOn then
        compileTextMatcher p.contentRegex p.contentCase p.contentWhole p.contentPat
      else some (fun _ => true)) with
    | none => ⟨[], true, true, [], 0⟩
    | some matchContent =>
      let cands := folderCandsT p.depthLimit p.skipHidden p.rules p.excludeGlobs t [] 0
      ⟨cands.filterMap (fun c => processFolderCand p matchFolder matchContent c.1 c.2),
       false, true,
       (walk_with_depth p.depthLimit p.skipHidden p.rules p.excludeGlobs t).map
         WalkEntry.path,
       cands.length⟩

end Grepper

/-! ## Helper lemmas -/

namespace Grepper

theorem globStarAll : ∀ (s : List Char) (fuel : Nat), s.length + 2 ≤ fuel →
    globMatchFuel fuel ['*'] s = true := by
  intro s
  induction s with
  | nil =>
    intro fuel h
    cases fuel with
    | zero => omega
    | succ m =>
      cases m with
      | zero => omega
      | succ k => simp [globMatchFuel]
  | cons d ss ih =>
    intro fuel h
    cases fuel with
    | zero => omega
    | succ m =>
      have hm : ss.length + 2 ≤ m := by simp at h; omega
      simp [globMatchFuel, ih m hm]

theorem globStarStarAll : ∀ (s : List Char) (fuel : Nat), s.length + 3 ≤ fuel →
    globMatchFuel fuel ['*', '*'] s = true := by
  intro s fuel h
  cases fuel with
  | zero => omega
  | succ m =>
    have hm : s.length + 2 ≤ m := by omega
    simp [globMatchFuel, globStarAll s m hm]

theorem globPeelPlain : ∀ (pre : List Char) (fuel : Nat) (ps s : List Char),
    (∀ c ∈ pre, c ≠ '*' ∧ c ≠ '?') →
    globMatchFuel (pre.length + fuel) (pre ++ ps) (pre ++ s) =
      globMatchFuel fuel ps s := by
  intro pre
  induction pre with
  | nil => intro fuel ps s _; simp
  | cons c cs ih =>
    intro fuel ps s h
    have hc := h c (by simp)
    have hcs : ∀ x ∈ cs, x ≠ '*' ∧ x ≠ '?' := fun x hx => h x (by simp [hx])
    have hlen : (c :: cs).length + fuel = (cs.length + fuel) + 1 := by
      simp [List.length_cons]; omega
    rw [hlen]
    simp only [List.cons_append, globMatchFuel]
    simp [hc.1, hc.2, ih fuel ps s hcs]

theorem gitignoreAux_nomatch (relPath : List Char) (isDir : Bool) :
    ∀ (rules : List IgnoreRule) (acc : Bool),
    (∀ r ∈ rules, ruleMatches relPath isDir r = false) →
    gitignoreAux relPath (lastComp relPath) isDir rules acc = acc := by
  intro rules
  induction rules with
  | nil => intro acc _; rfl
  | cons r rs ih =>
    intro acc h
    have hr := h r (by simp)
    have hrs : ∀ x ∈ rs, ruleMatches relPath isDir x = false :=
      fun x hx => h x (by simp [hx])
    unfold gitignoreAux
    unfold ruleMatches at hr
    by_cases hd : (r.dirOnly && !isDir) = true
    · simp [hd, ih _ hrs]
    · by_cases hco : '/' ∈ r.pat
      · simp only [if_neg hd] at hr
        simp [hco] at hr
        simp [hd, hco, hr, ih _ hrs]
      · simp only [if_neg hd] at hr
        simp [hco] at hr
        simp [hd, hco, hr, ih _ hrs]

theorem gitignoreAux_dirOnly_skip (relPath name : List Char) :
    ∀ (rules : List IgnoreRule) (acc : Bool),
    (∀ r ∈ rules, r.dirOnly = true) →
    gitignoreAux relPath name false rules acc = acc := by
  intro rules
  induction rules with
  | nil => intro acc _; rfl
  | cons r rs ih =>
    intro acc h
    have hr := h r (by simp)
    have hrs : ∀ x ∈ rs, x.dirOnly = true := fun x hx => h x (by simp [hx])
    unfold gitignoreAux
    simp [hr, ih _ hrs]

theorem startsWithL_iff : ∀ (n h : List Char), startsWithL n h = true ↔ ∃ t, h = n ++ t := by
  intro n
  induction n with
  | nil => intro h; simp [startsWithL]
  | cons c cs ih =>
    intro h
    cases h with
    | nil => simp [startsWithL]
    | cons d ds =>
      simp only [startsWithL, Bool.and_eq_true, decide_eq_true_eq, ih ds, List.cons_append]
      constructor
      · rintro ⟨rfl, t, rfl⟩
        exact ⟨t, rfl⟩
      · rintro ⟨t, ht⟩
        injection ht with h1 h2
        exact ⟨h1.symm, t, h2⟩

theorem containsSub_iff : ∀ (n h : List Char),
    containsSub n h = true ↔ ∃ pre post, h = pre ++ n ++ post := by
  intro n h
  induction h with
  | nil =>
    simp only [containsSub, List.isEmpty_iff]
    constructor
    · rintro rfl; exact ⟨[], [], rfl⟩
    · rintro ⟨pre, post, hp⟩
      have h2 := hp.symm
      simp only [List.append_eq_nil] at h2
      tauto
  | cons d ds ih =>
    simp only [containsSub, Bool.or_eq_true, startsWithL_iff, ih]
    constructor
    · rintro (⟨t, ht⟩ | ⟨pre, post, hp⟩)
      · exact ⟨[], t, by simpa using ht⟩
      · exact ⟨d :: pre, post, by simp [hp]⟩
    · rintro ⟨pre, post, hp⟩
      cases pre with
      | nil => exact Or.inl ⟨post, by simpa using hp⟩
      | cons x xs =>
        right
        rw [List.cons_append, List.cons_append] at hp
        injection hp with h1 h2
        exact ⟨xs, post, by simpa using h2⟩

theorem list_isEmpty_append (a b : List Nat) :
    (a ++ b).isEmpty = (a.isEmpty && b.isEmpty) := by
  cases a <;> simp

theorem list_any_or (l : List Nat) (p q : Nat → Bool) :
    l.any (fun a => p a || q a) = (l.any p || l.any q) := by
  induction l with
  | nil => rfl
  | cons a as ih =>
    simp only [List.any_cons, ih]
    cases p a <;> cases q a <;> simp

theorem regexSearchCI_alt (ci : Bool) (r1 r2 : Regex) (hay : List Char) :
    regexSearchCI ci (Regex.alt r1 r2) hay =
      (regexSearchCI ci r1 hay || regexSearchCI ci r2 hay) := by
  unfold regexSearchCI
  rw [← list_any_or]
  congr 1
  funext i
  simp [spansCI, list_isEmpty_append]

theorem metaSubsetSpecial : ∀ x ∈ regexMetaChars, x ∈ reSpecialChars := by decide

theorem tokenize_escape_append : ∀ (cs rest : List Char),
    (tokenize rest).isSome = true →
    (tokenize (escapeRegex cs ++ rest)).isSome = true := by
  intro cs
  induction cs with
  | nil => intro rest h; simpa [escapeRegex] using h
  | cons c cs2 ih =>
    intro rest h
    by_cases hc : c ∈ reSpecialChars
    · have hb : c ≠ 'b' := by
        intro hcb; subst hcb; exact absurd hc (by decide)
      have halnum : c.isAlphanum = false := by fin_cases hc <;> decide
      simp only [escapeRegex, if_pos hc, List.cons_append, List.nil_append]
      rw [tokenize]
      simp [hb, halnum, Option.isSome_map', ih rest h]
    · have hbs : c ≠ '\\' := by
        intro hcb; subst hcb; exact hc (by decide)
      have hbar : c ≠ '|' := by
        intro hcb; subst hcb; exact hc (by decide)
      have hmeta : c ∉ regexMetaChars := fun hm => hc (metaSubsetSpecial c hm)
      simp only [escapeRegex, if_neg hc, List.cons_append, List.nil_append]
      rw [tokenize.eq_def]
      simp [hbs, hbar, hmeta, Option.isSome_map', ih rest h]

theorem parseRegex_escaped_wrap_isSome (needle : List Char) :
    (parseRegex (wordBWrap (escapeRegex needle))).isSome = true := by
  unfold parseRegex wordBWrap
  rw [Option.isSome_map']
  have h2 : (tokenize ['\\', 'b']).isSome = true := by decide
  have h1 := tokenize_escape_append needle ['\\', 'b'] h2
  simp [tokenize, Option.isSome_map', h1]

/-! ## Claim theorems -/

/-- Claim C1: a pattern spec compiled with `isRegex=false` yields a
predicate that accepts a subject exactly when the literal pattern occurs in
it as a substring (both sides case-folded when `caseSensitive=false`), and
with `wholeWord=true` the predicate rejects occurrences inside a larger
word: pattern `"cat"` whole-word does not match `"concatenate"` but does
match `"the cat sat"`. -/
theorem C1_literal_matcher :
    (∀ (cs : Bool) (p l : List Char),
      literalIsMatch cs false p l = true ↔
        ∃ pre post,
          (if cs then l else lowerList l) =
            pre ++ (if cs then p else lowerList p) ++ post) ∧
    literalIsMatch true true "cat".toList "concatenate".toList = false ∧
    literalIsMatch true true "cat".toList "the cat sat".toList = true := by
  refine ⟨?_, by decide, by decide⟩
  intro cs p l
  cases cs <;> simp [literalIsMatch] <;> simpa using containsSub_iff _ _

/-- Claim C2 (counterexample): the worker's whole-word regex predicate for
pattern `"cat|dog"` accepts `"catdog"`, while the pattern wrapped as a
single unit with word boundaries on both sides (the highlight regex
`\b(?:cat|dog)\b`) rejects it — so the compiled predicate does not match
"exactly when the pattern wrapped as a single unit matches". -/
theorem C2_wholeWord_counterexample :
    textIsMatch true true true "cat|dog".toList "catdog".toList = true ∧
    highlightMatch true true true "cat|dog".toList "catdog".toList = false :=
  ⟨by decide, by decide⟩

/-- Claim C2 (amended): the worker concatenates `\b` on both sides of the
raw pattern without grouping (`rf"\b{pattern}\b"`), so for a regex pattern
with top-level alternation the boundaries attach to the first and last
alternatives only: the whole-word matcher for `"cat|dog"` is exactly the
disjunction of the matchers for `\bcat` and `dog\b`. -/
theorem C2_wholeWord_amended :
    ∀ line : List Char,
      textIsMatch true true true "cat|dog".toList line =
        (textIsMatch true true false "\\bcat".toList line ||
         textIsMatch true true false "dog\\b".toList line) := by
  intro line
  have h1 : textIsMatch true true true "cat|dog".toList line =
      regexSearchCI false (Regex.alt
        (Regex.cat Regex.wordB (Regex.cat (Regex.chr 'c')
          (Regex.cat (Regex.chr 'a') (Regex.cat (Regex.chr 't') Regex.eps))))
        (Regex.cat (Regex.chr 'd') (Regex.cat (Regex.chr 'o')
          (Regex.cat (Regex.chr 'g') (Regex.cat Regex.wordB Regex.eps))))) line := rfl
  have h2 : textIsMatch true true false "\\bcat".toList line =
      regexSearchCI false (Regex.cat Regex.wordB (Regex.cat (Regex.chr 'c')
        (Regex.cat (Regex.chr 'a') (Regex.cat (Regex.chr 't') Regex.eps)))) line := rfl
  have h3 : textIsMatch true true false "dog\\b".toList line =
      regexSearchCI false (Regex.cat (Regex.chr 'd') (Regex.cat (Regex.chr 'o')
        (Regex.cat (Regex.chr 'g') (Regex.cat Regex.wordB Regex.eps)))) line := rfl
  rw [h1, h2, h3, regexSearchCI_alt]

/-- Claim C3: ignore-rule evaluation iterates the rules in order with last
match winning: for the rules parsed from `["*.log", "!keep.log"]`,
`"app.log"` is ignored and `"keep.log"` is not; and a path matched by no
rule is never ignored. -/
theorem C3_ignore_rules :
    (gitignore_ignored "app.log".toList false
        (load_gitignore_rules ["*.log".toList, "!keep.log".toList]) = true) ∧
    (gitignore_ignored "keep.log".toList false
        (load_gitignore_rules ["*.log".toList, "!keep.log".toList]) = false) ∧
    (∀ (relPath : List Char) (isDir : Bool) (rules : List IgnoreRule),
      (∀ r ∈ rules, ruleMatches relPath isDir r = false) →
      gitignore_ignored relPath isDir rules = false) := by
  refine ⟨by decide, by decide, ?_⟩
  intro relPath isDir rules h
  unfold gitignore_ignored
  by_cases he : rules = []
  · simp [he]
  · simp [he, gitignoreAux_nomatch relPath isDir rules false h]

/-- Witness for C3: the unmatched path `"main.py"` is not ignored under the
example rules. -/
theorem C3_ignore_rules_witness :
    gitignore_ignored "main.py".toList false
      (load_gitignore_rules ["*.log".toList, "!keep.log".toList]) = false :=
  C3_ignore_rules.2.2 "main.py".toList false
    (load_gitignore_rules ["*.log".toList, "!keep.log".toList]) (by decide)

/-- Claim C4 (counterexample): the rule parsed from `"node_modules/"` has
its pattern rewritten to `node_modules/**`, which does **not** match the
named directory itself — `evaluate("node_modules", isDirectory=true)` is
`false`, contradicting the claim that the rewritten rule ignores the named
directory itself. -/
theorem C4_dir_rule_counterexample :
    gitignore_ignored "node_modules".toList true
      (load_gitignore_rules ["node_modules/".toList]) = false := by
  decide

/-- Claim C4 (amended): a trailing-`/` line parses to a directory-only rule
with pattern rewritten to `name/**`; under evaluation the rewritten rule
ignores every path strictly beneath the named directory that is presented
as a directory (but not the named directory itself), and directory-only
rules are skipped for all non-directory candidates. -/
theorem C4_dir_rule_amended :
    (load_gitignore_rules ["node_modules/".toList] =
      [⟨"node_modules/**".toList, false, true⟩]) ∧
    (∀ sub : List Char,
      gitignore_ignored ("node_modules/".toList ++ sub) true
        (load_gitignore_rules ["node_modules/".toList]) = true) ∧
    (∀ (relPath : List Char) (rules : List IgnoreRule),
      (∀ r ∈ rules, r.dirOnly = true) →
      gitignore_ignored relPath false rules = false) := by
  refine ⟨by decide, ?_, ?_⟩
  · intro sub
    have h13 : ("node_modules/".toList).length = 13 := by decide
    have hfn : fnmatchcase ("node_modules/".toList ++ sub)
        ("node_modules/".toList ++ ['*', '*']) = true := by
      unfold fnmatchcase
      have harith : (("node_modules/".toList) ++ ['*', '*']).length +
          (("node_modules/".toList) ++ sub).length + 1
          = ("node_modules/".toList).length + (16 + sub.length) := by
        simp only [List.length_append, h13, List.length_cons, List.length_nil]
        omega
      rw [harith,
        globPeelPlain ("node_modules/".toList) (16 + sub.length) ['*', '*'] sub (by decide)]
      exact globStarStarAll sub _ (by omega)
    have hrules : load_gitignore_rules ["node_modules/".toList] =
        [⟨"node_modules/".toList ++ ['*', '*'], false, true⟩] := by decide
    have hco : '/' ∈ ("node_modules/".toList ++ ['*', '*']) := by decide
    rw [hrules]
    unfold gitignore_ignored gitignoreAux
    simp [hco]
    unfold gitignoreAux
    simpa using hfn
  · intro relPath rules h
    unfold gitignore_ignored
    by_cases he : rules = []
    · simp [he]
    · simp [he, gitignoreAux_dirOnly_skip relPath (lastComp relPath) rules false h]

/-- Witness for C4 (amended): the file path `"node_modules/x.txt"` presented
as a non-directory is not ignored, because the parsed rule is
directory-only. -/
theorem C4_dir_rule_witness :
    gitignore_ignored "node_modules/x.txt".toList false
      (load_gitignore_rules ["node_modules/".toList]) = false :=
  C4_dir_rule_amended.2.2 "node_modules/x.txt".toList
    (load_gitignore_rules ["node_modules/".toList]) (by decide)

/-- Claim C10: literal-mode matcher construction is total — with
`isRegex=false` compilation always succeeds (the invalid-pattern branch is
unreachable), and the escaped-and-wrapped pattern the whole-word literal
predicate hands to the regex engine always parses, for every pattern
string including ones full of regex metacharacters. -/
theorem C10_literal_total :
    (∀ (cs whole : Bool) (p : List Char),
      (compileTextMatcher false cs whole p).isSome = true) ∧
    (∀ needle : List Char,
      (parseRegex (wordBWrap (escapeRegex needle))).isSome = true) :=
  ⟨fun _ _ _ => rfl, parseRegex_escaped_wrap_isSome⟩

end Grepper

namespace Grepper

theorem scanLines_first_le_one (isM : List Char → Bool) :
    ∀ (i : Nat) (lines : List (List Char)),
    (scanLines isM true i lines).length ≤ 1 := by
  intro i lines
  induction lines generalizing i with
  | nil => simp [scanLines]
  | cons l ls ih =>
    by_cases hm : isM l = true
    · simp [scanLines, hm]
    · simp [scanLines, hm, ih (i + 1)]

theorem folder_content_matches_all_skipped (fp : FolderParams) (folderRel : List Char) :
    ∀ (es : List DirEntry) (seen : Nat),
    (∀ e ∈ es, e.isFile = true →
      (e.binary = true ∨ (0 < fp.maxBytes ∧ fp.maxBytes < e.size))) →
    (folder_content_matches fp folderRel es seen).1 = false := by
  intro es
  induction es with
  | nil => intro seen _; rfl
  | cons e es2 ih =>
    intro seen h
    have he := h e (by simp)
    have hes : ∀ x ∈ es2, x.isFile = true →
        (x.binary = true ∨ (0 < fp.maxBytes ∧ fp.maxBytes < x.size)) :=
      fun x hx => h x (by simp [hx])
    rw [folder_content_matches]
    split_ifs with h1 h2 h3 h4 h5 h6 h7 h8 h9
    · exact ih _ hes
    · exact ih _ hes
    · exact ih _ hes
    · exact ih _ hes
    · exact ih _ hes
    · exact ih _ hes
    · exact ih _ hes
    · exact ih _ hes
    · exfalso
      have hfile : e.isFile = true := by
        cases hx : e.isFile
        · rw [hx] at h1; simp at h1
        · rfl
      rcases he hfile with hb | hcap
      · rw [hb] at h8; simp at h8
      · apply h6
        simp only [Bool.and_eq_true, decide_eq_true_eq]
        exact hcap
    · exact ih _ hes

mutual

theorem walkT_depth_bound (l : Nat) (sh : Bool) (rules : List IgnoreRule)
    (dx : List (List Char)) (t : FSTree) (path : List (List Char)) :
    ∀ e ∈ walkT (some l) sh rules dx t path path.length,
    e.path.length ≤ max path.length l ∧ (l ≤ e.path.length → e.dirNames = []) := by
  match t with
  | FSTree.node nm subdirs files =>
    intro e he
    rw [walkT] at he
    rcases List.mem_cons.mp he with rfl | he2
    · refine ⟨le_max_left _ _, ?_⟩
      intro hl
      simp only at hl
      simp [hl]
    · by_cases hp : l ≤ path.length
      · simp [hp] at he2
      · simp only [decide_eq_true_eq, if_neg hp] at he2
        have h3 := walkL_depth_bound l sh rules dx subdirs path (by omega) e he2
        exact ⟨h3.1.trans (le_max_right _ _), h3.2⟩

theorem walkL_depth_bound (l : Nat) (sh : Bool) (rules : List IgnoreRule)
    (dx : List (List Char)) (ts : List FSTree) (path : List (List Char))
    (hlt : path.length < l) :
    ∀ e ∈ walkL (some l) sh rules dx ts path path.length,
    e.path.length ≤ l ∧ (l ≤ e.path.length → e.dirNames = []) := by
  match ts with
  | [] => intro e he; simp [walkL] at he
  | t :: ts2 =>
    intro e he
    rw [walkL] at he
    rcases List.mem_append.mp he with h1 | h2
    · by_cases hk : (walkDirKeep sh rules path t && !(dirExcluded dx t.name)) = true
      · rw [if_pos hk] at h1
        have hlen : (path ++ [t.name]).length = path.length + 1 := by simp
        rw [← hlen] at h1
        have h4 := walkT_depth_bound l sh rules dx t (path ++ [t.name]) e h1
        refine ⟨?_, h4.2⟩
        have h5 := h4.1
        rw [hlen] at h5
        have h6 : max (path.length + 1) l = l := by omega
        rw [h6] at h5
        exact h5
      · rw [if_neg hk] at h1
        simp at h1
    · exact walkL_depth_bound l sh rules dx ts2 path hlt e h2

end

/-- Claim C5: with `firstMatchPerFile=true` the Content worker's per-file
scan emits at most one record per file — once a matching line is emitted
the scan of that file stops, even when more lines would match. -/
theorem C5_first_match_per_file (p : TextParams) (isM : List Char → Bool)
    (dirPath : List (List Char)) (f : FileM) (hf : p.firstMatch = true) :
    (processFile p isM dirPath f).length ≤ 1 := by
  unfold processFile
  split_ifs with h1 h2
  · simp
  · simp
  · simp only [List.length_map, hf]
    exact scanLines_first_le_one isM 1 f.lines

/-- Witness for C5: a file in which two lines match the predicate still
contributes at most one record. -/
theorem C5_first_match_per_file_witness :
    (processFile ⟨[], [], 0, none, false, [], true, false, true, false,
        "cat".toList, none⟩
      (fun l => containsSub "cat".toList l) []
      ⟨"a.txt".toList, 3, false, ["cat one".toList, "cat two".toList]⟩).length ≤ 1 :=
  C5_first_match_per_file _ _ _ _ rfl

/-- Claim C6: traversal with `depthLimit=0` yields exactly one entry — the
root with its (filtered) immediate files and an empty subdirectory list —
and never descends; in general every yielded entry lies at depth at most
the limit, and an entry at the limit has its subdirectory list pruned
empty while its files are still yielded. -/
theorem C6_depth_limit :
    (∀ (sh : Bool) (rules : List IgnoreRule) (dx : List (List Char))
        (nm : List Char) (subs : List FSTree) (fs : List FileM),
      walk_with_depth (some 0) sh rules dx (FSTree.node nm subs fs) =
        [⟨[], [], walkFilesFiltered sh rules [] fs⟩]) ∧
    (∀ (l : Nat) (sh : Bool) (rules : List IgnoreRule) (dx : List (List Char))
        (t : FSTree) (e : WalkEntry),
      e ∈ walk_with_depth (some l) sh rules dx t →
      e.path.length ≤ l ∧ (l ≤ e.path.length → e.dirNames = [])) := by
  constructor
  · intro sh rules dx nm subs fs
    rw [walk_with_depth, walkT]
    simp
  · intro l sh rules dx t e he
    have h0 : (([] : List (List Char))).length = 0 := rfl
    rw [walk_with_depth] at he
    rw [← h0] at he
    have h1 := walkT_depth_bound l sh rules dx t [] e he
    rw [h0] at h1
    simpa using h1

/-- Witness for C6: in a two-level tree walked with `depthLimit=0`, the
root entry is at depth 0 with no subdirectories to descend into. -/
theorem C6_depth_limit_witness :
    ((⟨[], [], []⟩ : WalkEntry).path.length ≤ 0 ∧
      (0 ≤ (⟨[], [], []⟩ : WalkEntry).path.length →
        (⟨[], [], []⟩ : WalkEntry).dirNames = [])) :=
  C6_depth_limit.2 0 false [] []
    (FSTree.node "r".toList [FSTree.node "s".toList [] []] []) ⟨[], [], []⟩
    (by decide)

/-- Claim C7: with the content filter enabled, the FolderName worker never
emits a record for a directory all of whose directly contained files are
binary (or unreadable) or over the size cap, even when the folder-name
predicate matched. -/
theorem C7_folder_content_filter (fp : FolderParams) (nameMatches : Bool)
    (folderRel : List Char) (entries : List DirEntry)
    (hon : fp.contentOn = true)
    (hall : ∀ e ∈ entries, e.isFile = true →
      (e.binary = true ∨ (0 < fp.maxBytes ∧ fp.maxBytes < e.size))) :
    folderEmits fp nameMatches folderRel entries = false := by
  unfold folderEmits
  rw [folder_content_matches_all_skipped fp folderRel entries 0 hall, hon]
  simp

/-- Witness for C7: a folder whose two files are a binary file and an
over-cap file is not emitted although its name matched. -/
theorem C7_folder_content_filter_witness :
    folderEmits ⟨[], [], 5, false, [], true, fun _ => true⟩ true "sub".toList
      [⟨"a.bin".toList, true, 1, true, []⟩,
       ⟨"big.txt".toList, true, 10, false, ["x".toList]⟩] = false :=
  C7_folder_content_filter _ _ _ _ rfl (by decide)

/-- Claim C8: a run with `isRegex=true` and a non-parsing pattern in any
of its pattern specs fails before scanning, in all three workers: the
invalid-pattern error is logged, the one-way stop flag is set as the
terminal signal, no directory is visited, no file or folder is counted,
and no record is emitted.  For the FileName and FolderName workers this
covers both the primary spec and the content-filter spec (the latter
consulted only when the content filter is on). -/
theorem C8_invalid_pattern :
    (∀ (p : TextParams) (t : FSTree), p.useRegex = true →
      parseRegex (if p.wholeWord then wordBWrap p.pattern else p.pattern) = none →
      worker_text p t = ⟨[], true, true, [], 0⟩) ∧
    (∀ (p : FileParams) (t : FSTree),
      (p.fnameRegex = true ∧
        parseRegex (if p.fnameWhole then wordBWrap p.fnamePat else p.fnamePat) = none) ∨
      (p.contentOn = true ∧ p.contentRegex = true ∧
        parseRegex (if p.contentWhole then wordBWrap p.contentPat else p.contentPat)
          = none) →
      worker_file p t = ⟨[], true, true, [], 0⟩) ∧
    (∀ (p : FolderWParams) (t : FSTree),
      (p.folderRegex = true ∧
        parseRegex (if p.folderWhole then wordBWrap p.folderPat else p.folderPat)
          = none) ∨
      (p.contentOn = true ∧ p.contentRegex = true ∧
        parseRegex (if p.contentWhole then wordBWrap p.contentPat else p.contentPat)
          = none) →
      worker_folder p t = ⟨[], true, true, [], 0⟩) := by
  refine ⟨?_, ?_, ?_⟩
  · intro p t hre hbad
    unfold worker_text compileTextMatcher
    rw [hre]
    simp [hbad]
  · intro p t h
    unfold worker_file
    rcases h with ⟨hre, hbad⟩ | ⟨hon, hcr, hbad⟩
    · have hc : compileTextMatcher p.fnameRegex p.fnameCase p.fnameWhole p.fnamePat
          = none := by
        unfold compileTextMatcher
        rw [hre]
        simp [hbad]
      rw [hc]
    · have hc2 : compileTextMatcher p.contentRegex p.contentCase p.contentWhole
          p.contentPat = none := by
        unfold compileTextMatcher
        rw [hcr]
        simp [hbad]
      cases h1 : compileTextMatcher p.fnameRegex p.fnameCase p.fnameWhole p.fnamePat with
      | none => rfl
      | some m => simp [hon, hc2]
  · intro p t h
    unfold worker_folder
    rcases h with ⟨hre, hbad⟩ | ⟨hon, hcr, hbad⟩
    · have hc : compileTextMatcher p.folderRegex p.folderCase p.folderWhole p.folderPat
          = none := by
        unfold compileTextMatcher
        rw [hre]
        simp [hbad]
      rw [hc]
    · have hc2 : compileTextMatcher p.contentRegex p.contentCase p.contentWhole
          p.contentPat = none := by
        unfold compileTextMatcher
        rw [hcr]
        simp [hbad]
      cases h1 : compileTextMatcher p.folderRegex p.folderCase p.folderWhole p.folderPat with
      | none => rfl
      | some m => simp [hon, hc2]

/-- Witness for C8: the malformed pattern `cat\` (trailing lone backslash)
aborts each worker before scanning — as the Content pattern, as the
FileName worker's filename spec, as the FileName worker's content-filter
spec (with a valid filename spec), and as the FolderName worker's
folder-name spec — each over a tree a valid run would match. -/
theorem C8_invalid_pattern_witness :
    (worker_text ⟨[], [], 0, none, false, [], false, true, true, false,
        "cat\\".toList, none⟩
      (FSTree.node "r".toList [] [⟨"a.txt".toList, 3, false, ["cat".toList]⟩]) =
      ⟨[], true, true, [], 0⟩) ∧
    (worker_file ⟨[], [], 0, none, false, [], true, true, false, "cat\\".toList,
        false, false, true, false, []⟩
      (FSTree.node "r".toList [] [⟨"cat.txt".toList, 3, false, ["cat".toList]⟩]) =
      ⟨[], true, true, [], 0⟩) ∧
    (worker_file ⟨[], [], 0, none, false, [], false, true, false, "cat".toList,
        true, true, true, false, "cat\\".toList⟩
      (FSTree.node "r".toList [] [⟨"cat.txt".toList, 3, false, ["cat".toList]⟩]) =
      ⟨[], true, true, [], 0⟩) ∧
    (worker_folder ⟨[], [], 0, none, false, [], true, true, false, "cat\\".toList,
        false, false, true, false, []⟩
      (FSTree.node "r".toList [FSTree.node "cat".toList [] []] []) =
      ⟨[], true, true, [], 0⟩) :=
  ⟨C8_invalid_pattern.1 _ _ rfl (by decide),
   C8_invalid_pattern.2.1 _ _ (Or.inl ⟨rfl, by decide⟩),
   C8_invalid_pattern.2.1 _ _ (Or.inr ⟨rfl, rfl, by decide⟩),
   C8_invalid_pattern.2.2 _ _ (Or.inl ⟨rfl, by decide⟩)⟩

/-- Claim C9: every exclude glob reaching the external-backend adapter
(parsed from the settings field, hence non-blank) contributes exactly two
negated glob filters `!g` and `!**/g/**` when it has no wildcard and no
separator, and exactly one filter `!g` otherwise. -/
theorem C9_exclude_glob_translation (raw g : List Char) (hg : g ∈ parseGlobList raw) :
    (hasWildcards g = false →
      rgExcludeGlobArgs g =
        ['!' :: g, ('!' :: '*' :: '*' :: '/' :: g) ++ ['/', '*', '*']]) ∧
    (hasWildcards g = true → rgExcludeGlobArgs g = ['!' :: g]) := by
  have hne : g.isEmpty = false := by
    unfold parseGlobList at hg
    have h2 := List.mem_filter.mp hg
    simpa using h2.2
  constructor
  · intro hw; simp [rgExcludeGlobArgs, hne, hw]
  · intro hw; simp [rgExcludeGlobArgs, hne, hw]

/-- Witness for C9: from the settings text `node_modules;*.png`, the bare
name yields two filters and the wildcard glob yields one. -/
theorem C9_exclude_glob_translation_witness :
    rgExcludeGlobArgs "node_modules".toList =
      ['!' :: "node_modules".toList,
       ('!' :: '*' :: '*' :: '/' :: "node_modules".toList) ++ ['/', '*', '*']] ∧
    rgExcludeGlobArgs "*.png".toList = ['!' :: "*.png".toList] :=
  ⟨(C9_exclude_glob_translation "node_modules;*.png".toList "node_modules".toList
      (by decide)).1 (by decide),
   (C9_exclude_glob_translation "node_modules;*.png".toList "*.png".toList
      (by decide)).2 (by decide)⟩

end Grepper
